import Mathlib

/-!
Verification of the single-hot-product purchase harness.

The repository is a small Go program (two variants: `main.go` with a fixed
product count, and a second variant where the product count is a CLI flag)
that seeds a `products` table, runs concurrent workers which each attempt a
bounded number of transactional decrements, and finally verifies the
aggregate stock against a closed-form expectation.

The embedding below models the store as a list of rows, a purchase attempt
as a function from a failure-injection oracle and a target product id to a
new store plus a trace of transaction events, and a run as a fold of an
interleaved schedule of attempts over the initialized store.  Transactions
are serialized by the `FOR UPDATE` row lock for their whole
read-modify-write-commit span, so a run is faithfully modelled as a
sequential fold of whole attempts.
-/

/-- A row of the `products` table: `id INT PRIMARY KEY, name VARCHAR, count BIGINT`. -/
structure Row where
  id : Nat
  name : String
  count : Int
  deriving DecidableEq, Repr

/-- The `products` table, owned by the store. -/
abbrev Store := List Row

/-- `initialStock` constant from the source: stock per product. -/
def initialStock : Nat := 10000000

/-- `numProducts` constant from `main.go` (the fixed-product-count variant). -/
def numProducts : Nat := 10

/-- The row inserted for product `i` by the schema initialization loop:
`INSERT INTO products (id, name, count) VALUES (i, "T-Shirt-i", initialStock)`. -/
def mkRow (i : Nat) : Row :=
  ⟨i, "T-Shirt-" ++ toString i, (initialStock : Int)⟩

/-- `DROP TABLE IF EXISTS products`: discards all prior rows. -/
def dropTable (_st : Store) : Store := []

/-- The insert loop `for i := 1; i <= n; i++ { INSERT ... }` appended to a store. -/
def insertAll (n : Nat) (st : Store) : Store :=
  st ++ (List.range n).map (fun i => mkRow (i + 1))

/-- Schema initialization: drop any prior table, recreate it, insert `n` rows. -/
def initializeSchema (prior : Store) (n : Nat) : Store :=
  insertAll n (dropTable prior)

/-- The freshly initialized store of `n` products. -/
def initCounters (n : Nat) : Store :=
  (List.range n).map (fun i => mkRow (i + 1))

/-- `SELECT count FROM products WHERE id = ? FOR UPDATE` — the locked read.
Returns `none` when no row matches (the `Scan` then errors). -/
def readCount (st : Store) (productID : Nat) : Option Int :=
  (st.find? (fun r => r.id == productID)).map Row.count

/-- `UPDATE products SET count = count - 1 WHERE id = ?`. -/
def decrementRow (st : Store) (productID : Nat) : Store :=
  st.map (fun r => if r.id = productID then { r with count := r.count - 1 } else r)

/-- `SELECT SUM(count) FROM products`. -/
def sumCounts (st : Store) : Int :=
  (st.map Row.count).sum

/-- Transaction-level events a single purchase attempt can emit, each tagged
with whether the underlying call succeeded. -/
inductive TxEvent where
  | txBegin (ok : Bool)
  | txRead (ok : Bool)
  | txUpdate (ok : Bool)
  | txCommit (ok : Bool)
  | txRollback
  deriving DecidableEq, Repr

/-- Failure injection for one attempt: which of the fallible store calls
(`db.Begin`, the locked `SELECT`, the `UPDATE`, `tx.Commit`) fails. -/
structure FailureOracle where
  beginFails : Bool
  readFails : Bool
  updateFails : Bool
  commitFails : Bool
  deriving DecidableEq, Repr

/-- The oracle under which every store call succeeds. -/
def okOracle : FailureOracle := ⟨false, false, false, false⟩

/-- One purchase attempt (the body of the worker's inner loop): begin a
transaction, read the target row's count under an exclusive lock, decrement
when positive, commit; roll back and abandon the attempt on begin/read/update
failure, and just abandon it on commit failure.  Returns the resulting store
and the trace of transaction events the attempt issued. -/
def attempt (o : FailureOracle) (productID : Nat) (st : Store) :
    Store × List TxEvent :=
  if o.beginFails then
    (st, [TxEvent.txBegin false])
  else
    match readCount st productID with
    | none =>
      (st, [TxEvent.txBegin true, TxEvent.txRead false, TxEvent.txRollback])
    | some currentStock =>
      if o.readFails then
        (st, [TxEvent.txBegin true, TxEvent.txRead false, TxEvent.txRollback])
      else if currentStock > 0 then
        if o.updateFails then
          (st, [TxEvent.txBegin true, TxEvent.txRead true,
                TxEvent.txUpdate false, TxEvent.txRollback])
        else if o.commitFails then
          (st, [TxEvent.txBegin true, TxEvent.txRead true,
                TxEvent.txUpdate true, TxEvent.txCommit false])
        else
          (decrementRow st productID,
           [TxEvent.txBegin true, TxEvent.txRead true,
            TxEvent.txUpdate true, TxEvent.txCommit true])
      else
        if o.commitFails then
          (st, [TxEvent.txBegin true, TxEvent.txRead true, TxEvent.txCommit false])
        else
          (st, [TxEvent.txBegin true, TxEvent.txRead true, TxEvent.txCommit true])

/-- Case analysis on the store an attempt produces: either the store is
unchanged, or the attempt committed a decrement of a row it read positive. -/
theorem attempt_store_cases (o : FailureOracle) (productID : Nat) (st : Store) :
    (attempt o productID st).1 = st ∨
      ((attempt o productID st).1 = decrementRow st productID ∧
        ∃ c, readCount st productID = some c ∧ 0 < c) := by
  unfold attempt
  rcases o with ⟨b, r, u, c⟩
  cases b <;> cases r <;> cases u <;> cases c <;> simp <;>
    (cases h : readCount st productID with
      | none => simp
      | some v =>
        simp only
        first
        | (split <;> simp_all)
        | simp_all)

/-- One entry of a run schedule: the interleaving observed at the store is a
sequence of whole attempts, each belonging to one worker and carrying that
attempt's random target product and failure injection.  The `FOR UPDATE` lock
held for the full read-modify-write-commit span justifies treating each
attempt as one atomic step of the interleaving. -/
structure SchedEntry where
  workerID : Nat
  productID : Nat
  oracle : FailureOracle
  deriving DecidableEq, Repr

/-- Execute a schedule of attempts sequentially over the store (the total
order the per-row locking imposes on conflicting attempts). -/
def runSchedule (sched : List SchedEntry) (st : Store) : Store :=
  sched.foldl (fun s e => (attempt e.oracle e.productID s).1) st

/-- A schedule realizes the coordinator's structure for `workerCount` workers
of `opsPerWorker` attempts each: every entry belongs to one of the
`workerCount` workers, and each worker contributes exactly `opsPerWorker`
entries (its attempts, in their sequential order). -/
def isInterleaving (workerCount opsPerWorker : Nat) (sched : List SchedEntry) : Prop :=
  (∀ e ∈ sched, e.workerID < workerCount) ∧
    ∀ w < workerCount, (sched.filter (fun e => e.workerID == w)).length = opsPerWorker

instance (workerCount opsPerWorker : Nat) (sched : List SchedEntry) :
    Decidable (isInterleaving workerCount opsPerWorker sched) := by
  unfold isInterleaving
  infer_instance

/-- The verifier's report: the values printed after the barrier and the
consistency verdict. -/
structure Report where
  products : Nat
  initialTotal : Int
  expectedTotal : Int
  actualTotal : Int
  consistent : Bool
  deriving DecidableEq, Repr

/-- `expectedTotalStock := initialTotalStock - int64(totalPurchases)` with
`initialTotalStock := int64(initialStock) * int64(numProducts)` and
`totalPurchases := concurrency * batchSize`. -/
def expectedTotalStock (products concurrency batchSize : Nat) : Int :=
  (initialStock : Int) * (products : Int) - ((concurrency * batchSize : Nat) : Int)

/-- The verification step: read the aggregate stock, compute the expectation,
and report both together with the verdict `finalTotalStock == expectedTotalStock`. -/
def verify (products concurrency batchSize : Nat) (st : Store) : Report :=
  { products := products
    initialTotal := (initialStock : Int) * (products : Int)
    expectedTotal := expectedTotalStock products concurrency batchSize
    actualTotal := sumCounts st
    consistent := sumCounts st == expectedTotalStock products concurrency batchSize }

/-- A run configuration: `concurrency` workers, `batchSize` purchases per
worker, `numProducts` counter rows. -/
structure RunConfig where
  concurrency : Nat
  batchSize : Nat
  numProducts : Nat
  deriving DecidableEq, Repr

/-- The CLI flags a run may supply (`none` means the flag was omitted and the
default applies). -/
structure Flags where
  concurrency : Option Nat
  batchsize : Option Nat
  products : Option Nat
  deriving DecidableEq, Repr

/-- Flag parsing of `main.go`: `concurrency` and `batchsize` are flags with
defaults 100 and 10; the product count is the program constant `numProducts`. -/
def mainGoConfig (f : Flags) : RunConfig :=
  { concurrency := f.concurrency.getD 100
    batchSize := f.batchsize.getD 10
    numProducts := numProducts }

/-- Flag parsing of the multi-product variant: `concurrency`, `batchsize` and
`products` are all flags, with defaults 100, 10 and 1. -/
def multiProductConfig (f : Flags) : RunConfig :=
  { concurrency := f.concurrency.getD 100
    batchSize := f.batchsize.getD 10
    numProducts := f.products.getD 1 }

/-- The store after a full run: schema initialization (before any worker
starts), then the whole schedule of worker attempts. -/
def finalStore (cfg : RunConfig) (sched : List SchedEntry) : Store :=
  runSchedule sched (initializeSchema [] cfg.numProducts)

/-- The whole harness: the verifier runs only on the final store, after the
`wg.Wait()` barrier, i.e. after every scheduled attempt has executed. -/
def runHarness (cfg : RunConfig) (sched : List SchedEntry) : Report :=
  verify cfg.numProducts cfg.concurrency cfg.batchSize (finalStore cfg sched)

/-- Dropping the table makes initialization independent of prior state. -/
theorem initializeSchema_eq_initCounters (prior : Store) (n : Nat) :
    initializeSchema prior n = initCounters n := by
  simp [initializeSchema, insertAll, dropTable, initCounters]

theorem range_map_const (n : Nat) (x : Int) :
    (List.range n).map (fun _ => x) = List.replicate n x := by
  induction n with
  | zero => rfl
  | succ m ih => simp [List.range_succ, List.replicate_succ', ih]

/-- Every row the initializer creates carries `initialStock`. -/
theorem initCounters_counts (n : Nat) :
    (initCounters n).map Row.count = List.replicate n ((initialStock : Nat) : Int) := by
  simp only [initCounters, List.map_map]
  have h : (Row.count ∘ fun i => mkRow (i + 1)) = fun _ : Nat => ((initialStock : Nat) : Int) := by
    funext i
    simp [mkRow, Function.comp]
  rw [h, range_map_const]

theorem initCounters_length (n : Nat) : (initCounters n).length = n := by
  simp [initCounters]

theorem sumCounts_initCounters (n : Nat) :
    sumCounts (initCounters n) = (initialStock : Int) * (n : Int) := by
  simp [sumCounts, initCounters_counts, mul_comm]

/-- The initializer's ids `1, ..., n` are distinct (`id` is the primary key). -/
theorem initCounters_ids_nodup (n : Nat) : ((initCounters n).map Row.id).Nodup := by
  simp only [initCounters, List.map_map]
  have h : (Row.id ∘ fun i => mkRow (i + 1)) = fun i : Nat => i + 1 := by
    funext i
    rfl
  rw [h]
  exact (List.nodup_range n).map fun a b hab => by omega

theorem initCounters_bounds (n : Nat) :
    ∀ r ∈ initCounters n, 0 ≤ r.count ∧ r.count ≤ (initialStock : Int) := by
  intro r hr
  simp only [initCounters, List.mem_map] at hr
  obtain ⟨i, _, rfl⟩ := hr
  simp [mkRow]

/-- The `UPDATE ... WHERE id = ?` touches no `id` field. -/
theorem decrementRow_ids (st : Store) (pid : Nat) :
    (decrementRow st pid).map Row.id = st.map Row.id := by
  induction st with
  | nil => rfl
  | cons a t ih =>
    simp only [decrementRow, List.map_cons, List.cons.injEq] at ih ⊢
    exact ⟨by split <;> rfl, ih⟩

/-- With distinct ids, the locked read returns the count of the one matching
row. -/
theorem readCount_of_nodup (st : Store) (pid : Nat) (r : Row)
    (hn : (st.map Row.id).Nodup) (hr : r ∈ st) (hid : r.id = pid) :
    readCount st pid = some r.count := by
  induction st with
  | nil => cases hr
  | cons a t ih =>
    simp only [List.map_cons, List.nodup_cons, List.mem_map] at hn
    rcases List.mem_cons.mp hr with rfl | hmem
    · simp [readCount, List.find?, hid]
    · have haid : a.id ≠ pid := by
        intro h
        exact hn.1 ⟨r, hmem, by rw [hid, h]⟩
      have : (a.id == pid) = false := by
        simp [haid]
      simp only [readCount, List.find?, this]
      exact ih hn.2 hmem

/-- An attempt never changes any `id`. -/
theorem attempt_ids (o : FailureOracle) (pid : Nat) (st : Store) :
    ((attempt o pid st).1).map Row.id = st.map Row.id := by
  rcases attempt_store_cases o pid st with h | ⟨h, _⟩
  · rw [h]
  · rw [h, decrementRow_ids]

/-- An attempt preserves per-row bounds `0 ≤ count ≤ S` when ids are distinct:
the decrement happens only on a row that was read strictly positive. -/
theorem attempt_bounds (S : Int) (o : FailureOracle) (pid : Nat) (st : Store)
    (hn : (st.map Row.id).Nodup)
    (hb : ∀ r ∈ st, 0 ≤ r.count ∧ r.count ≤ S) :
    ∀ r ∈ (attempt o pid st).1, 0 ≤ r.count ∧ r.count ≤ S := by
  rcases attempt_store_cases o pid st with h | ⟨h, c, hread, hc⟩
  · rw [h]
    exact hb
  · rw [h]
    intro r' hr'
    simp only [decrementRow, List.mem_map] at hr'
    obtain ⟨r, hr, rfl⟩ := hr'
    by_cases hid : r.id = pid
    · have hcount : readCount st pid = some r.count := readCount_of_nodup st pid r hn hr hid
      rw [hread] at hcount
      have hrc : r.count = c := by
        injection hcount.symm
      have hrb := hb r hr
      rw [if_pos hid]
      simp only
      omega
    · rw [if_neg hid]
      exact hb r hr

/-- A whole schedule never changes any `id`. -/
theorem runSchedule_ids (sched : List SchedEntry) (st : Store) :
    (runSchedule sched st).map Row.id = st.map Row.id := by
  induction sched generalizing st with
  | nil => rfl
  | cons e t ih =>
    simp only [runSchedule, List.foldl_cons] at ih ⊢
    rw [ih, attempt_ids]

/-- A whole schedule preserves per-row bounds when ids are distinct. -/
theorem runSchedule_bounds (S : Int) (sched : List SchedEntry) (st : Store)
    (hn : (st.map Row.id).Nodup)
    (hb : ∀ r ∈ st, 0 ≤ r.count ∧ r.count ≤ S) :
    ∀ r ∈ runSchedule sched st, 0 ≤ r.count ∧ r.count ≤ S := by
  induction sched generalizing st with
  | nil => exact hb
  | cons e t ih =>
    simp only [runSchedule, List.foldl_cons] at ih ⊢
    have hn' : (((attempt e.oracle e.productID st).1).map Row.id).Nodup := by
      rw [attempt_ids]
      exact hn
    exact ih _ hn' (attempt_bounds S e.oracle e.productID st hn hb)

theorem filter_worker_cons (e : SchedEntry) (t : List SchedEntry) (w : Nat) :
    ((e :: t).filter (fun x => x.workerID == w)).length =
      (if e.workerID = w then 1 else 0) +
        (t.filter (fun x => x.workerID == w)).length := by
  by_cases h : e.workerID = w
  · simp [List.filter_cons, h]
    omega
  · simp [List.filter_cons, h]

theorem sum_map_add_nat {α : Type} (l : List α) (f g : α → Nat) :
    (l.map (fun x => f x + g x)).sum = (l.map f).sum + (l.map g).sum := by
  induction l with
  | nil => rfl
  | cons a t ih =>
    simp only [List.map_cons, List.sum_cons, ih]
    omega

theorem sum_indicator_zero (W k : Nat) (h : W ≤ k) :
    ((List.range W).map (fun w => if k = w then 1 else 0)).sum = 0 := by
  induction W with
  | zero => rfl
  | succ m ih =>
    have hk : k ≠ m := by omega
    simp [List.range_succ, ih (by omega), hk]

theorem sum_indicator_one (W k : Nat) (h : k < W) :
    ((List.range W).map (fun w => if k = w then 1 else 0)).sum = 1 := by
  induction W with
  | zero => omega
  | succ m ih =>
    by_cases hk : k = m
    · subst hk
      simp [List.range_succ, sum_indicator_zero k k (le_refl k)]
    · have hk' : k < m := by omega
      simp [List.range_succ, ih hk', hk]

/-- The length of a schedule whose entries all belong to workers `< W` is the
sum over the workers of the number of entries each contributes. -/
theorem length_eq_sum_filter (sched : List SchedEntry) (W : Nat)
    (h : ∀ e ∈ sched, e.workerID < W) :
    sched.length =
      ((List.range W).map
        (fun w => (sched.filter (fun e => e.workerID == w)).length)).sum := by
  induction sched with
  | nil => simp
  | cons e t ih =>
    have he : e.workerID < W := h e (List.mem_cons_self e t)
    have ht : ∀ x ∈ t, x.workerID < W := fun x hx => h x (List.mem_cons_of_mem e hx)
    have hstep : (List.range W).map
        (fun w => ((e :: t).filter (fun x => x.workerID == w)).length) =
        (List.range W).map
          (fun w => (if e.workerID = w then 1 else 0) +
            (t.filter (fun x => x.workerID == w)).length) := by
      refine List.map_congr_left ?_
      intro w _
      exact filter_worker_cons e t w
    rw [hstep, sum_map_add_nat, sum_indicator_one W e.workerID he]
    simp only [List.length_cons, ih ht]
    omega

theorem sum_map_const_nat {α : Type} (l : List α) (b : Nat) :
    (l.map (fun _ => b)).sum = l.length * b := by
  induction l with
  | nil => simp
  | cons a t ih =>
    simp only [List.map_cons, List.sum_cons, List.length_cons, ih]
    ring

/-- An interleaving of `W` workers with `B` attempts each has exactly `W * B`
entries. -/
theorem schedule_length_of_interleaving (W B : Nat) (sched : List SchedEntry)
    (h : isInterleaving W B sched) : sched.length = W * B := by
  rw [length_eq_sum_filter sched W h.1]
  have hcongr : (List.range W).map
      (fun w => (sched.filter (fun e => e.workerID == w)).length) =
      (List.range W).map (fun _ => B) := by
    refine List.map_congr_left ?_
    intro w hw
    exact h.2 w (List.mem_range.mp hw)
  rw [hcongr, sum_map_const_nat, List.length_range]

/-- Did this event report a failed store call? -/
def eventFailed : TxEvent → Bool
  | TxEvent.txBegin ok => !ok
  | TxEvent.txRead ok => !ok
  | TxEvent.txUpdate ok => !ok
  | TxEvent.txCommit ok => !ok
  | TxEvent.txRollback => false

/-- Events that terminate an open transaction: any `Commit` call (successful
or not) and any `Rollback` call. -/
def isTerminator : TxEvent → Bool
  | TxEvent.txCommit _ => true
  | TxEvent.txRollback => true
  | _ => false

/-- The seven control-flow paths of one attempt, each with its resulting
store and exact event trace. -/
theorem attempt_shape (o : FailureOracle) (pid : Nat) (st : Store) :
    attempt o pid st = (st, [TxEvent.txBegin false]) ∨
    attempt o pid st =
      (st, [TxEvent.txBegin true, TxEvent.txRead false, TxEvent.txRollback]) ∨
    attempt o pid st =
      (st, [TxEvent.txBegin true, TxEvent.txRead true,
            TxEvent.txUpdate false, TxEvent.txRollback]) ∨
    attempt o pid st =
      (st, [TxEvent.txBegin true, TxEvent.txRead true,
            TxEvent.txUpdate true, TxEvent.txCommit false]) ∨
    attempt o pid st =
      (decrementRow st pid,
       [TxEvent.txBegin true, TxEvent.txRead true,
        TxEvent.txUpdate true, TxEvent.txCommit true]) ∨
    attempt o pid st =
      (st, [TxEvent.txBegin true, TxEvent.txRead true, TxEvent.txCommit false]) ∨
    attempt o pid st =
      (st, [TxEvent.txBegin true, TxEvent.txRead true, TxEvent.txCommit true]) := by
  unfold attempt
  rcases o with ⟨b, r, u, c⟩
  cases b <;> cases r <;> cases u <;> cases c <;> simp <;>
    (cases h : readCount st pid with
      | none => simp
      | some v =>
        simp only
        first
        | (split <;> simp_all)
        | simp_all)

/-- After a committed decrement, the locked read of the same id returns one
less than before. -/
theorem readCount_decrementRow (st : Store) (pid : Nat) (c : Int)
    (h : readCount st pid = some c) :
    readCount (decrementRow st pid) pid = some (c - 1) := by
  induction st with
  | nil => simp [readCount] at h
  | cons a t ih =>
    by_cases ha : a.id = pid
    · have hb : (a.id == pid) = true := by simp [ha]
      simp only [readCount, List.find?, hb, Option.map_some] at h
      injection h with h
      simp only [decrementRow, List.map_cons, if_pos ha]
      simp only [readCount, List.find?]
      have hb' : ((⟨a.id, a.name, a.count - 1⟩ : Row).id == pid) = true := hb
      simp only [hb']
      rw [← h]
      rfl
    · have hb : (a.id == pid) = false := by simp [ha]
      simp only [readCount, List.find?, hb] at h
      simp only [decrementRow, List.map_cons, if_neg ha]
      simp only [readCount, List.find?, hb]
      exact ih h

/-- With every store call succeeding, an attempt whose locked read returns
`c` commits a decrement by exactly one when `0 < c` and commits without any
write when `c = 0`. -/
theorem purchase_branch (pid : Nat) (st : Store) (c : Int)
    (h : readCount st pid = some c) :
    (0 < c →
      attempt okOracle pid st =
        (decrementRow st pid,
         [TxEvent.txBegin true, TxEvent.txRead true,
          TxEvent.txUpdate true, TxEvent.txCommit true]) ∧
      readCount (decrementRow st pid) pid = some (c - 1)) ∧
    (c = 0 →
      attempt okOracle pid st =
        (st, [TxEvent.txBegin true, TxEvent.txRead true, TxEvent.txCommit true])) := by
  constructor
  · intro hc
    constructor
    · simp [attempt, okOracle, h, hc]
    · exact readCount_decrementRow st pid c h
  · intro hc
    subst hc
    simp [attempt, okOracle, h]

/-- C1: after all workers have finished, the verifier computes
`expected = initialStock * counterCount - workerCount * opsPerWorker`, reads
the aggregate stock of the final store, reports consistent exactly when the
actual aggregate equals the expectation, and its report carries both the
expected and the actual value.  Holds for every run configuration and every
schedule. -/
theorem verifier_verdict_iff_expected (cfg : RunConfig) (sched : List SchedEntry) :
    (runHarness cfg sched).expectedTotal =
        (initialStock : Int) * (cfg.numProducts : Int) -
          ((cfg.concurrency * cfg.batchSize : Nat) : Int) ∧
    (runHarness cfg sched).actualTotal = sumCounts (finalStore cfg sched) ∧
    (runHarness cfg sched).initialTotal = (initialStock : Int) * (cfg.numProducts : Int) ∧
    ((runHarness cfg sched).consistent = true ↔
      (runHarness cfg sched).actualTotal = (runHarness cfg sched).expectedTotal) := by
  refine ⟨rfl, rfl, rfl, ?_⟩
  simp only [runHarness, verify]
  exact beq_iff_eq

/-- C2: starting from the initialized counters, every counter's stock stays
within `[0, initialStock]` after any schedule of attempts (hence at all
times), and no single attempt ever increases any row's count. -/
theorem stock_stays_in_bounds :
    (∀ (n : Nat) (sched : List SchedEntry) (r : Row),
        r ∈ runSchedule sched (initCounters n) →
          0 ≤ r.count ∧ r.count ≤ (initialStock : Int)) ∧
    (∀ (o : FailureOracle) (pid : Nat) (st : Store),
        List.Forall₂ (fun r r' : Row => r'.count ≤ r.count) st (attempt o pid st).1) := by
  constructor
  · intro n sched r hr
    exact runSchedule_bounds (initialStock : Int) sched (initCounters n)
      (initCounters_ids_nodup n) (initCounters_bounds n) r hr
  · intro o pid st
    rcases attempt_store_cases o pid st with h | ⟨h, _⟩
    · rw [h]
      exact List.forall₂_same.mpr fun x _ => le_refl _
    · rw [h]
      unfold decrementRow
      rw [List.forall₂_map_right_iff]
      refine List.forall₂_same.mpr ?_
      intro x _
      by_cases hx : x.id = pid
      · rw [if_pos hx]
        simp only
        omega
      · rw [if_neg hx]

/-- Witness for C2 at `n = 1`, the empty schedule and the single seeded row. -/
theorem stock_stays_in_bounds_witness :
    0 ≤ (mkRow 1).count ∧ (mkRow 1).count ≤ (initialStock : Int) :=
  stock_stays_in_bounds.1 1 [] (mkRow 1) (by decide)

/-- C3: within one attempt whose store calls all succeed, a locked read of
`c > 0` leads to a decrement by exactly one of that counter committed in the
same transaction, while a read of `c = 0` performs no write and still
commits (a no-op, not an error). -/
theorem purchase_decrement_or_noop (pid : Nat) (st : Store) (c : Int)
    (h : readCount st pid = some c) :
    (0 < c →
      (attempt okOracle pid st).1 = decrementRow st pid ∧
      readCount ((attempt okOracle pid st).1) pid = some (c - 1) ∧
      TxEvent.txUpdate true ∈ (attempt okOracle pid st).2 ∧
      TxEvent.txCommit true ∈ (attempt okOracle pid st).2) ∧
    (c = 0 →
      (attempt okOracle pid st).1 = st ∧
      (∀ b : Bool, TxEvent.txUpdate b ∉ (attempt okOracle pid st).2) ∧
      TxEvent.txCommit true ∈ (attempt okOracle pid st).2) := by
  obtain ⟨h1, h2⟩ := purchase_branch pid st c h
  constructor
  · intro hc
    obtain ⟨he, hr⟩ := h1 hc
    rw [he]
    exact ⟨rfl, hr, by simp, by simp⟩
  · intro hc
    rw [h2 hc]
    exact ⟨rfl, by simp, by simp⟩

/-- Witness for C3 on the freshly seeded single counter. -/
theorem purchase_decrement_or_noop_witness :
    (attempt okOracle 1 (initCounters 1)).1 = decrementRow (initCounters 1) 1 ∧
    readCount ((attempt okOracle 1 (initCounters 1)).1) 1 =
      some ((initialStock : Int) - 1) ∧
    TxEvent.txUpdate true ∈ (attempt okOracle 1 (initCounters 1)).2 ∧
    TxEvent.txCommit true ∈ (attempt okOracle 1 (initCounters 1)).2 :=
  (purchase_decrement_or_noop 1 (initCounters 1) (initialStock : Int)
    (by decide)).1 (by decide)

/-- C4 counterexample: when the commit of an attempt fails, the code issues
no rollback (the commit-failure branch just `continue`s), so rollback is not
invoked on every failure path as the claim states. -/
theorem commit_failure_no_rollback_cex :
    TxEvent.txCommit false ∈
      (attempt ⟨false, false, false, true⟩ 1 (initCounters 1)).2 ∧
    TxEvent.txRollback ∉
      (attempt ⟨false, false, false, true⟩ 1 (initCounters 1)).2 := by
  decide

/-- C4 as amended: a failed locked read or failed write is followed by a
rollback; a failed commit is not followed by a rollback but leaves the store
unchanged; every failure path leaves the store unchanged (no partial state);
and the worker proceeds unconditionally to the rest of its schedule. -/
theorem failure_paths_abandon_attempt (o : FailureOracle) (pid : Nat) (st : Store) :
    ((TxEvent.txRead false ∈ (attempt o pid st).2 ∨
        TxEvent.txUpdate false ∈ (attempt o pid st).2) →
      TxEvent.txRollback ∈ (attempt o pid st).2) ∧
    (TxEvent.txCommit false ∈ (attempt o pid st).2 →
      TxEvent.txRollback ∉ (attempt o pid st).2 ∧ (attempt o pid st).1 = st) ∧
    ((∃ e ∈ (attempt o pid st).2, eventFailed e = true) → (attempt o pid st).1 = st) ∧
    (∀ (w : Nat) (rest : List SchedEntry),
      runSchedule (⟨w, pid, o⟩ :: rest) st = runSchedule rest ((attempt o pid st).1)) := by
  rcases attempt_shape o pid st with hs|hs|hs|hs|hs|hs|hs <;>
    exact ⟨by simp [hs], by simp [hs], by simp [hs, eventFailed], fun w rest => rfl⟩

/-- Witness for C4 as amended: a failed locked read is followed by a
rollback. -/
theorem failure_paths_abandon_attempt_witness :
    TxEvent.txRollback ∈ (attempt ⟨false, true, false, false⟩ 1 (initCounters 1)).2 :=
  (failure_paths_abandon_attempt ⟨false, true, false, false⟩ 1 (initCounters 1)).1
    (Or.inl (by decide))

/-- C5 counterexample: at a configuration whose total attempts (20000000)
exceed the available stock, the implementation's expectation is the negative
naive value, not the clamped `max 0 (initial - attempts)` the claim states. -/
theorem expectation_not_clamped_cex :
    expectedTotalStock 1 20000000 1 = -10000000 ∧
    max (0 : Int) ((initialStock : Int) * 1 - 20000000) = 0 ∧
    expectedTotalStock 1 20000000 1 ≠
      max (0 : Int) ((initialStock : Int) * 1 - 20000000) := by
  refine ⟨?_, ?_, ?_⟩ <;> decide

/-- C5 as amended: the implementation's expectation is the unclamped
`initialStock * products - concurrency * batchSize`; when that value is
negative and the actual aggregate is non-negative, the verifier necessarily
reports the run inconsistent. -/
theorem expectation_formula_unclamped (products concurrency batchSize : Nat)
    (st : Store) :
    expectedTotalStock products concurrency batchSize =
      (initialStock : Int) * (products : Int) -
        ((concurrency * batchSize : Nat) : Int) ∧
    (0 ≤ sumCounts st →
      expectedTotalStock products concurrency batchSize < 0 →
      (verify products concurrency batchSize st).consistent = false) := by
  refine ⟨rfl, fun h0 hneg => ?_⟩
  simp only [verify]
  rw [beq_eq_false_iff_ne]
  omega

/-- Witness for C5 as amended: the empty store and 20000000 attempts on one
counter give an inconsistent verdict. -/
theorem expectation_formula_unclamped_witness :
    (verify 1 20000000 1 []).consistent = false :=
  (expectation_formula_unclamped 1 20000000 1 []).2 (by decide) (by decide)

/-- C6: schema initialization discards any prior state and creates exactly
`n` counters, each holding `initialStock`, so its starting aggregate is
`initialStock * n` and re-running it yields the same result regardless of
prior state. -/
theorem initializer_resets_and_seeds (prior prior' : Store) (n : Nat) :
    initializeSchema prior n = initCounters n ∧
    (initializeSchema prior n).length = n ∧
    (initializeSchema prior n).map Row.count =
      List.replicate n ((initialStock : Nat) : Int) ∧
    sumCounts (initializeSchema prior n) = (initialStock : Int) * (n : Int) ∧
    initializeSchema prior n = initializeSchema prior' n := by
  have h := initializeSchema_eq_initCounters prior n
  refine ⟨h, ?_, ?_, ?_, ?_⟩
  · rw [h, initCounters_length]
  · rw [h, initCounters_counts]
  · rw [h, sumCounts_initCounters]
  · rw [h, initializeSchema_eq_initCounters]

/-- C7: a schedule realizing `workerCount` workers of `opsPerWorker` attempts
each contains exactly `workerCount * opsPerWorker` attempts, and the harness
hands the verifier only the store obtained after the whole schedule has run
over the initialized counters (the `wg.Wait()` barrier precedes the read). -/
theorem coordinator_schedule_totals (cfg : RunConfig) (sched : List SchedEntry)
    (h : isInterleaving cfg.concurrency cfg.batchSize sched) :
    sched.length = cfg.concurrency * cfg.batchSize ∧
    runHarness cfg sched =
      verify cfg.numProducts cfg.concurrency cfg.batchSize
        (runSchedule sched (initializeSchema [] cfg.numProducts)) :=
  ⟨schedule_length_of_interleaving _ _ sched h, rfl⟩

/-- Witness for C7: two workers with one attempt each. -/
theorem coordinator_schedule_totals_witness :
    ([⟨0, 1, okOracle⟩, ⟨1, 1, okOracle⟩] : List SchedEntry).length = 2 * 1 ∧
    runHarness ⟨2, 1, 1⟩ [⟨0, 1, okOracle⟩, ⟨1, 1, okOracle⟩] =
      verify 1 2 1
        (runSchedule [⟨0, 1, okOracle⟩, ⟨1, 1, okOracle⟩]
          (initializeSchema [] 1)) :=
  coordinator_schedule_totals ⟨2, 1, 1⟩ [⟨0, 1, okOracle⟩, ⟨1, 1, okOracle⟩]
    (by decide)

/-- C8 counterexample: in the `main.go` variant the counter count is the
program constant 10 — supplying any product count externally leaves it 10, so
the counter count is not an externally supplied input of every run. -/
theorem product_count_fixed_in_main_cex :
    (mainGoConfig ⟨some 7, some 3, some 4⟩).numProducts = 10 ∧
    (mainGoConfig ⟨some 7, some 3, some 9⟩).numProducts = 10 ∧
    (4 : Nat) ≠ 10 := by
  refine ⟨rfl, rfl, ?_⟩
  decide

/-- C8 as amended: worker count and operations per worker are external CLI
flags (defaults 100 and 10) in both variants; the counter count is an
external CLI flag (default 1) only in the multi-product variant, while
`main.go` fixes it at the constant `numProducts = 10`. -/
theorem config_surface_flags (f : Flags) :
    (mainGoConfig f).concurrency = f.concurrency.getD 100 ∧
    (mainGoConfig f).batchSize = f.batchsize.getD 10 ∧
    (mainGoConfig f).numProducts = numProducts ∧
    numProducts = 10 ∧
    (multiProductConfig f).concurrency = f.concurrency.getD 100 ∧
    (multiProductConfig f).batchSize = f.batchsize.getD 10 ∧
    (multiProductConfig f).numProducts = f.products.getD 1 :=
  ⟨rfl, rfl, rfl, rfl, rfl, rfl, rfl⟩

/-- C9: an attempt that successfully begins a transaction invokes exactly one
terminating call (a commit, successful or failed, or a rollback), so no
attempt leaves its transaction open. -/
theorem transaction_terminated_exactly_once (o : FailureOracle) (pid : Nat)
    (st : Store) (h : TxEvent.txBegin true ∈ (attempt o pid st).2) :
    ((attempt o pid st).2.filter isTerminator).length = 1 := by
  rcases attempt_shape o pid st with hs|hs|hs|hs|hs|hs|hs <;> rw [hs] at h ⊢ <;>
    first
    | rfl
    | (exfalso; simp at h)

/-- Witness for C9: the all-success attempt terminates its transaction once. -/
theorem transaction_terminated_exactly_once_witness :
    ((attempt okOracle 1 (initCounters 1)).2.filter isTerminator).length = 1 :=
  transaction_terminated_exactly_once okOracle 1 (initCounters 1) (by decide)

/-- C10: an attempt changes at most the `count` of its targeted row — every
row keeps its `id` and `name`, and every non-targeted row also keeps its
`count`, on every control-flow path. -/
theorem attempt_frame_effect (o : FailureOracle) (pid : Nat) (st : Store) :
    List.Forall₂
      (fun r r' : Row =>
        r'.id = r.id ∧ r'.name = r.name ∧ (r.id ≠ pid → r'.count = r.count))
      st (attempt o pid st).1 := by
  rcases attempt_store_cases o pid st with h | ⟨h, _⟩
  · rw [h]
    exact List.forall₂_same.mpr fun x _ => ⟨rfl, rfl, fun _ => rfl⟩
  · rw [h]
    unfold decrementRow
    rw [List.forall₂_map_right_iff]
    refine List.forall₂_same.mpr ?_
    intro x _
    by_cases hx : x.id = pid
    · rw [if_pos hx]
      exact ⟨rfl, rfl, fun hc => absurd hx hc⟩
    · rw [if_neg hx]
      exact ⟨rfl, rfl, fun _ => rfl⟩

/-- Witness for C10 on the two-counter store with product 1 targeted. -/
theorem attempt_frame_effect_witness :
    List.Forall₂
      (fun r r' : Row =>
        r'.id = r.id ∧ r'.name = r.name ∧ (r.id ≠ 1 → r'.count = r.count))
      (initCounters 2) (attempt okOracle 1 (initCounters 2)).1 :=
  attempt_frame_effect okOracle 1 (initCounters 2)
